import Mathlib

/-!
Verification of the transaction-categorization core of the
`finance-software` repository (`categorizer-ai-service/app.py`).

Python strings are embedded as lists of Unicode code points (`List Nat`);
the character classes used by the service (`str.lower`, the regex class
`[^a-zA-Z\s]`, `str.split()`) are modelled on the ASCII range the lexicon
and the test inputs live in.  Confidences are rationals (the Python code
computes them with machine floats; every score handled here is a sum of
halves divided by a keyword count, which the float path represents with
enough precision that the comparisons against the 0.1 and 0.3 constants
agree with the exact rational ones for the values arising below).
-/

/-- A Python string, as its sequence of code points. -/
abbrev Txt := List Nat

/-- Code points of a Lean string literal, used to transcribe the Python literals. -/
def txt (s : String) : Txt := s.data.map Char.toNat

/-- The whitespace class of `str.split()` / regex `\s` (ASCII part):
space, tab, newline, carriage return, vertical tab, form feed. -/
def isSpaceC (c : Nat) : Bool :=
  c == 32 || c == 9 || c == 10 || c == 13 || c == 11 || c == 12

/-- ASCII letter, the class `[a-zA-Z]` of the regex in `clean_text`. -/
def isLetter (c : Nat) : Bool :=
  (97 ≤ c && c ≤ 122) || (65 ≤ c && c ≤ 90)

/-- Model of `str.lower()` on one character (ASCII case mapping). -/
def low (c : Nat) : Nat :=
  if 65 ≤ c && c ≤ 90 then c + 32 else c

/-- One character of `re.sub(r'[^a-zA-Z\s]', ' ', text)`:
anything that is neither an ASCII letter nor whitespace becomes a space. -/
def sub (c : Nat) : Nat :=
  if isLetter c || isSpaceC c then c else 32

/-- Python `text.split()`: split on runs of whitespace, dropping empty pieces. -/
def splitWs : Txt → List Txt
  | [] => []
  | c :: cs =>
    if isSpaceC c then splitWs cs
    else
      match cs with
      | [] => [[c]]
      | d :: _ =>
        if isSpaceC d then [c] :: splitWs cs
        else
          match splitWs cs with
          | [] => [[c]]
          | w :: ws => (c :: w) :: ws

/-- Python `' '.join(ws)`. -/
def joinSpace : List Txt → Txt
  | [] => []
  | [w] => w
  | w :: v :: ws => w ++ 32 :: joinSpace (v :: ws)

/-- Embedding of `clean_text` of `app.py` (lines 182-196): lowercase, replace every
character that is not an ASCII letter or whitespace by a space, collapse
whitespace, trim (the last two via `' '.join(text.split())`). -/
def clean_text (t : Txt) : Txt :=
  if t = [] then []
  else joinSpace (splitWs ((t.map low).map sub))

/-- Embedding of `clean_text` applied to a possibly absent (`None`) argument: the
`if not text` guard maps both `None` and `""` to `""`. -/
def clean_text_opt : Option Txt → Txt
  | none => []
  | some t => clean_text t

/-- Embedding of `preprocess_text` of `app.py` (lines 69-82): lowercase and collapse
whitespace; non-letter characters are NOT removed. -/
def preprocess_text (t : Txt) : Txt :=
  if t = [] then []
  else joinSpace (splitWs (t.map low))

/-- The `CATEGORY_KEYWORDS` dictionary of `app.py` (lines 114-180), in
insertion (= iteration) order.  Note that the catch-all `"Lainnya"` is one
of its keys and carries 18 keywords. -/
def CATEGORY_KEYWORDS : List (String × List Txt) :=
  [ ("Makanan & Minuman",
      (["alfamart", "ayam", "bakso", "breadtalk", "burger", "cafe", "coffee",
        "dunkin", "drink", "es krim", "food", "gado-gado", "galon", "grocery",
        "ice cream", "indomaret", "j.co", "jajanan", "juice", "katering", "kfc",
        "kopi", "makan", "makan malam", "makan siang", "mcd", "mcdonald", "minum",
        "nasi", "pasar", "pizza", "rendang", "restoran", "restaurant", "sarapan",
        "snack", "soto", "starbucks", "supermarket", "tea", "teh", "warteg", "warung"
       ] : List String).map txt),
    ("Transportasi",
      (["angkot", "angkutan", "ban", "bandara", "BBM", "bengkel", "bensin",
        "blue bird", "booking", "bus", "express", "flight", "gojek", "grab",
        "grab bike", "grab car", "kereta", "KRL", "LRT", "mobil", "motor", "MRT",
        "ojek", "oli", "parkir", "pelabuhan", "pertamax", "pertamina", "pesawat",
        "railway", "service", "shell", "SIM", "solar", "spbu", "stasiun", "STNK",
        "taxi", "tiket", "tol", "train", "transport", "travel", "uber", "e-money", "e-toll"
       ] : List String).map txt),
    ("Tagihan",
      (["air", "angsuran", "asuransi", "bayar", "bill", "bpjs", "cicilan",
        "disney+", "hbo", "indihome", "indosat", "insurance", "internet",
        "iuran", "keamanan", "KPR", "kredit", "listrik", "pam", "pajak",
        "paket data", "pascabayar", "pinjaman", "pln", "pulsa", "RW", "RT", "sampah",
        "smartfren", "tagihan", "tax", "telkom", "telkomsel", "three", "token listrik",
        "vidio", "wifi", "xl", "IPL"
       ] : List String).map txt),
    ("Belanja",
      (["baju", "belanja", "beli", "blibli", "bukalapak", "celana", "charger",
        "detergen", "elektronik", "electronics", "fashion", "furniture", "gadget",
        "handphone", "household", "kabel", "kosmetik", "laptop", "lazada",
        "makeup", "mall", "market", "oleh-oleh", "pakaian", "pakan hewan", "pampers",
        "pecah belah", "perabotan", "pet food", "popok", "sabun", "sepatu", "shampoo",
        "shopee", "shopping", "skincare", "store", "tas", "toko", "tokopedia", "zalora"
       ] : List String).map txt),
    ("Hiburan",
      (["billiard", "bioskop", "bowling", "cinema", "concert", "dufan", "festival",
        "film", "fitness", "game", "gaming", "gym", "hobi", "holiday", "hotel",
        "karaoke", "konser", "ktv", "langganan game", "liburan", "movie", "netflix",
        "olahraga", "ps4", "ps5", "rekreasi", "spotify", "sport", "staycation", "steam",
        "taman bermain", "tiket", "travel", "vacation", "wisata", "xbox", "youtube"
       ] : List String).map txt),
    ("Kesehatan",
      (["apotik", "century", "checkup", "dental", "dokter", "gigi", "guardian",
        "imunisasi", "kacamata", "kandungan", "kehamilan", "kimia farma", "klinik",
        "lab", "laboratorium", "mata", "medical", "medicine", "obat", "pharmacy",
        "psikiater", "psikolog", "rontgen", "rs", "rumah sakit", "suplemen", "terapi",
        "therapy", "usg", "vaksin", "vitamin", "glasses"
       ] : List String).map txt),
    ("Pendidikan",
      (["alat tulis", "bimbel", "bimbingan belajar", "book", "bootcamp", "buku",
        "certification", "course", "exam", "kampus", "kelulusan", "kuliah", "kursus",
        "les", "pendaftaran sekolah", "penelitian", "research", "sekolah", "seminar",
        "semester", "skripsi", "spp", "stationery", "thesis", "training", "uang sekolah",
        "ujian", "universitas", "webinar", "workshop"
       ] : List String).map txt),
    ("Investasi",
      (["ajaib", "asuransi jiwa", "bareksa", "bitcoin", "bond", "broker", "crypto",
        "dana darurat", "deposit", "emergency fund", "emas", "ethereum", "fintech",
        "gold", "indodax", "investasi", "investment", "life insurance", "mutual fund",
        "obligasi", "p2p lending", "pluang", "RDN", "reksadana", "saham", "saving",
        "sekuritas", "stock", "tabungan", "tanamduit", "trading"
       ] : List String).map txt),
    ("Lainnya",
      (["administrasi", "amal", "donasi", "denda", "hadiah", "infaq", "kado", "notaris",
        "patungan", "perbaikan", "renovasi", "sedekah", "servis", "sumbangan",
        "transfer", "uang duka", "zakat", "biaya tak terduga"
       ] : List String).map txt) ]

/-- Python substring test `p in s` (contiguous occurrence; `"" in s` is true). -/
def substr (p : Txt) : Txt → Bool
  | [] => p.isEmpty
  | c :: t => p.isPrefixOf (c :: t) || substr p t

/-- The per-category score of the keyword loop of `categorize_transaction`
(lines 220-234): `+1` when the cleaned keyword occurs in the cleaned
description, else `+0.5` when it is in a substring relation with some
token of the description. -/
def keywordScore (kws : List Txt) (cleaned : Txt) (words : List Txt) : ℚ :=
  kws.foldl (fun acc kw =>
    if substr (clean_text kw) cleaned then acc + 1
    else if words.any (fun w => substr w (clean_text kw) || substr (clean_text kw) w) then
      acc + 1/2
    else acc) 0

/-- The `category_scores` dictionary built by `categorize_transaction`
(lines 217-237): every category of `CATEGORY_KEYWORDS` with a non-empty
keyword list is mapped to its normalized score. -/
def category_scores (desc : Txt) : List (String × ℚ) :=
  let cleaned := clean_text desc
  let words := splitWs cleaned
  CATEGORY_KEYWORDS.filterMap (fun ck =>
    if ck.2.length > 0 then
      some (ck.1, keywordScore ck.2 cleaned words / (ck.2.length : ℚ))
    else none)

/-- Python `max(iterable, key=...)`: the first element attaining the
maximum value, `none` on an empty collection. -/
def bestOf : List (String × ℚ) → Option (String × ℚ)
  | [] => none
  | s :: ss => some (ss.foldl (fun b x => if x.2 > b.2 then x else b) s)

/-- The keyword-matching fallback of `categorize_transaction`
(lines 213-251): score every category, take the arg-max (first wins),
and return the catch-all `"Lainnya"` when the best score is below 0.1. -/
def keywordFallback (desc : Txt) : String × ℚ :=
  match bestOf (category_scores desc) with
  | none => ("Lainnya", 0)
  | some b => if b.2 < 1/10 then ("Lainnya", b.2) else b

/-- The body of the `try` block of `predict_with_ml_model` (lines 93-107):
the vectorizer transform and model predict are opaque; their joint outcome
is a parameter, either a `(label, max probability)` pair or a raised
exception (`Except.error`). -/
def predict_attempt (att : Except Unit (String × ℚ)) : Except Unit (Option String × ℚ) :=
  att.map (fun r => (some r.1, r.2))

/-- Embedding of `predict_with_ml_model` of `app.py` (lines 84-111): `(None, 0.0)` when
model or vectorizer is missing, and any exception of the transform/predict
step is caught and also converted to `(None, 0.0)`. -/
def predict_with_ml_model (loaded : Bool) (att : Except Unit (String × ℚ)) :
    Option String × ℚ :=
  if loaded then
    match predict_attempt att with
    | .ok r => r
    | .error _ => (none, 0)
  else (none, 0)

/-- Embedding of `categorize_transaction` of `app.py` (lines 198-251): empty description
short-circuits to the catch-all; a loaded model wins only with a truthy
label and confidence strictly above 0.3; otherwise the keyword fallback.
`loaded` stands for `model is not None and vectorizer is not None`, `att`
for the outcome of the transform/predict step. -/
def categorize_transaction (loaded : Bool) (att : Except Unit (String × ℚ))
    (desc : Txt) : String × ℚ :=
  if desc = [] then ("Lainnya", 0)
  else if loaded then
    match predict_with_ml_model loaded att with
    | (some c, conf) =>
      if c ≠ "" ∧ conf > 3/10 then (c, conf) else keywordFallback desc
    | (none, _) => keywordFallback desc
  else keywordFallback desc

/-- The `prediction_method` field computed by the `/categorize` and
`/categorize/batch` endpoints (lines 297 and 354): it is reconstructed
from the final confidence, not from the path actually taken. -/
def prediction_method (loaded : Bool) (conf : ℚ) : String :=
  if loaded ∧ conf > 3/10 then "ml_model" else "keyword_matching"

/-- The dispatcher written with the statistical step as a fallible
(`Except`) computation, the `try/except` of the adapter included, to state
that no exception escapes it. -/
def categorize_transactionE (loaded : Bool) (att : Except Unit (String × ℚ))
    (desc : Txt) : Except Unit (String × ℚ) :=
  if desc = [] then Except.ok ("Lainnya", 0)
  else if loaded then
    Except.bind
      (match predict_attempt att with
        | .ok v => Except.ok v
        | .error _ => Except.ok (none, 0))
      (fun r =>
        match r with
        | (some c, conf) =>
          if c ≠ "" ∧ conf > 3/10 then Except.ok (c, conf)
          else Except.ok (keywordFallback desc)
        | (none, _) => Except.ok (keywordFallback desc))
  else Except.ok (keywordFallback desc)

/-- Modelled from the spec: `classify_by_keywords` of §4.2 (the repository
has no function of that name; the keyword algorithm appears only inlined in
`categorize_transaction`).  Per §4.2 step 3 the catch-all category is
excluded from scoring; steps 5-7 are the same arg-max and 0.1 floor. -/
def classify_by_keywords (desc : Txt) : String × ℚ :=
  if desc = [] then ("Lainnya", 0)
  else
    let cleaned := clean_text desc
    let words := splitWs cleaned
    let scores := (CATEGORY_KEYWORDS.filter (fun ck => ck.1 ≠ "Lainnya")).map
      (fun ck => (ck.1, keywordScore ck.2 cleaned words / (ck.2.length : ℚ)))
    match bestOf scores with
    | none => ("Lainnya", 0)
    | some b => if b.2 < 1/10 then ("Lainnya", b.2) else b

/-- A batch element: either a JSON object with a `description` field, or a
malformed entry (not an object, or the field missing). -/
inductive TxItem where
  | valid : Txt → TxItem
  | malformed : TxItem
deriving DecidableEq

/-- One record of the `results` array of `/categorize/batch`: a full
classification, or the per-item error record (index, `invalid_transaction`). -/
inductive BatchItemResult where
  | ok : Nat → Txt → String → ℚ → String → BatchItemResult
  | err : Nat → BatchItemResult
deriving DecidableEq

/-- Whether a batch record is a full classification (not an error record). -/
def BatchItemResult.isClassified : BatchItemResult → Bool
  | .ok _ _ _ _ _ => true
  | .err _ => false

/-- The body of one iteration of the batch loop (lines 337-355). -/
def batchEntry (loaded : Bool) (ml : Txt → Except Unit (String × ℚ)) (i : Nat) :
    TxItem → BatchItemResult
  | .malformed => .err i
  | .valid d =>
    let r := categorize_transaction loaded (ml d) d
    .ok i d r.1 r.2 (prediction_method loaded r.2)

/-- The batch loop `for i, transaction in enumerate(transactions)`
(lines 337-355), appending exactly one record per element. -/
def batchResults (loaded : Bool) (ml : Txt → Except Unit (String × ℚ)) :
    Nat → List TxItem → List BatchItemResult
  | _, [] => []
  | i, t :: ts => batchEntry loaded ml i t :: batchResults loaded ml (i + 1) ts

/-- The `/categorize/batch` response for a well-formed request (lines
335-361): the `results` list and `total_processed = len(results)`. -/
def categorize_batch (loaded : Bool) (ml : Txt → Except Unit (String × ℚ))
    (txs : List TxItem) : List BatchItemResult × Nat :=
  let rs := batchResults loaded ml 0 txs
  (rs, rs.length)

/-- The `/categories` response (lines 374-384):
`list(CATEGORY_KEYWORDS.keys()) + ["Lainnya"]` and its length. -/
def get_categories : List String × Nat :=
  let categories := CATEGORY_KEYWORDS.map Prod.fst ++ ["Lainnya"]
  (categories, categories.length)

/-! ### A kernel-computable mirror of the scoring arithmetic

The rational score of `keywordScore` is a sum of halves; the mirror below
keeps it as a natural number of half-units (`+1` of the source is `+2`
here, `+0.5` is `+1`) and carries the keyword count separately, so that
concrete classifications can be evaluated by `decide` (core `Rat`
arithmetic does not reduce definitionally).  Transport lemmas identify the
mirror with the rational definitions. -/

/-- The score `keywordScore` in half-units: `2 * keywordScore`. -/
def keywordScore2 (kws : List Txt) (cleaned : Txt) (words : List Txt) : Nat :=
  kws.foldl (fun acc kw =>
    if substr (clean_text kw) cleaned then acc + 2
    else if words.any (fun w => substr w (clean_text kw) || substr (clean_text kw) w) then
      acc + 1
    else acc) 0

/-- The map `category_scores` with each score as `(half-units, keyword count)`. -/
def category_scores2 (desc : Txt) : List (String × Nat × Nat) :=
  let cleaned := clean_text desc
  let words := splitWs cleaned
  CATEGORY_KEYWORDS.filterMap (fun ck =>
    if ck.2.length > 0 then
      some (ck.1, keywordScore2 ck.2 cleaned words, ck.2.length)
    else none)

/-- The rational value of a `(category, half-units, keyword count)` entry. -/
def convQ (e : String × Nat × Nat) : String × ℚ :=
  (e.1, (e.2.1 : ℚ) / (2 * (e.2.2 : ℚ)))

/-- The arg-max `bestOf` on half-unit entries: `s/(2k) > s'/(2k')` is `s*k' > s'*k`. -/
def bestOf2 : List (String × Nat × Nat) → Option (String × Nat × Nat)
  | [] => none
  | s :: ss => some (ss.foldl (fun b x => if x.2.1 * b.2.2 > b.2.1 * x.2.2 then x else b) s)

/-- The fallback `keywordFallback` on half-unit entries: `s/(2k) < 1/10` is `5*s < k`. -/
def keywordFallback2 (desc : Txt) : String × Nat × Nat :=
  match bestOf2 (category_scores2 desc) with
  | none => ("Lainnya", 0, 1)
  | some b => if 5 * b.2.1 < b.2.2 then ("Lainnya", b.2.1, b.2.2) else b

/-- The spec classifier `classify_by_keywords` on half-unit entries, for concrete evaluation. -/
def classify_by_keywords2 (desc : Txt) : String × Nat × Nat :=
  if desc = [] then ("Lainnya", 0, 1)
  else
    let cleaned := clean_text desc
    let words := splitWs cleaned
    let scores := (CATEGORY_KEYWORDS.filter (fun ck => ck.1 ≠ "Lainnya")).map
      (fun ck => (ck.1, keywordScore2 ck.2 cleaned words, ck.2.length))
    match bestOf2 scores with
    | none => ("Lainnya", 0, 1)
    | some b => if 5 * b.2.1 < b.2.2 then ("Lainnya", b.2.1, b.2.2) else b

set_option maxRecDepth 100000

lemma keywordScore_foldl_half (cleaned : Txt) (words : List Txt) :
    ∀ (kws : List Txt) (a : Nat),
      kws.foldl (fun acc kw =>
        if substr (clean_text kw) cleaned then acc + 1
        else if words.any (fun w => substr w (clean_text kw) || substr (clean_text kw) w) then
          acc + 1/2
        else acc) ((a : ℚ)/2)
      = ((kws.foldl (fun acc kw =>
          if substr (clean_text kw) cleaned then acc + 2
          else if words.any (fun w => substr w (clean_text kw) || substr (clean_text kw) w) then
            acc + 1
          else acc) a : Nat) : ℚ)/2 := by
  intro kws
  induction kws with
  | nil => intro a; rfl
  | cons kw kws ih =>
    intro a
    simp only [List.foldl_cons]
    by_cases h1 : substr (clean_text kw) cleaned
    · rw [if_pos h1, if_pos h1,
        show (a : ℚ)/2 + 1 = ((a + 2 : Nat) : ℚ)/2 by push_cast; ring]
      exact ih (a + 2)
    · by_cases h2 : words.any (fun w => substr w (clean_text kw) || substr (clean_text kw) w)
      · rw [if_neg h1, if_neg h1, if_pos h2, if_pos h2,
          show (a : ℚ)/2 + 1/2 = ((a + 1 : Nat) : ℚ)/2 by push_cast; ring]
        exact ih (a + 1)
      · rw [if_neg h1, if_neg h1, if_neg h2, if_neg h2]
        exact ih a

lemma keywordScore_eq (kws : List Txt) (cleaned : Txt) (words : List Txt) :
    keywordScore kws cleaned words = (keywordScore2 kws cleaned words : ℚ)/2 := by
  unfold keywordScore keywordScore2
  have h := keywordScore_foldl_half cleaned words kws 0
  simpa using h

lemma category_scores_eq (desc : Txt) :
    category_scores desc = (category_scores2 desc).map convQ := by
  unfold category_scores category_scores2
  rw [List.map_filterMap]
  refine congrArg (fun f => List.filterMap f CATEGORY_KEYWORDS) (funext fun ck => ?_)
  by_cases h : ck.2.length > 0
  · rw [if_pos h, if_pos h, Option.map_some']
    unfold convQ
    simp only
    rw [keywordScore_eq, div_div]
  · rw [if_neg h, if_neg h, Option.map_none']

lemma convQ_lt (b x : String × Nat × Nat) (hb : 0 < b.2.2) (hx : 0 < x.2.2) :
    (convQ x).2 > (convQ b).2 ↔ x.2.1 * b.2.2 > b.2.1 * x.2.2 := by
  unfold convQ
  simp only [gt_iff_lt]
  rw [div_lt_div_iff (by positivity) (by positivity),
    show ((b.2.1 : ℚ)) * (2 * x.2.2) = 2 * (b.2.1 * x.2.2 : Nat) by push_cast; ring,
    show ((x.2.1 : ℚ)) * (2 * b.2.2) = 2 * (x.2.1 * b.2.2 : Nat) by push_cast; ring,
    mul_lt_mul_left (by norm_num : (0:ℚ) < 2)]
  exact ⟨fun h => by exact_mod_cast h, fun h => by exact_mod_cast h⟩

lemma bestOf_foldl_eq (L : List (String × Nat × Nat)) :
    ∀ b : String × Nat × Nat, 0 < b.2.2 → (∀ e ∈ L, 0 < e.2.2) →
      (L.map convQ).foldl (fun b x => if x.2 > b.2 then x else b) (convQ b)
        = convQ (L.foldl (fun b x => if x.2.1 * b.2.2 > b.2.1 * x.2.2 then x else b) b) := by
  induction L with
  | nil => intro b _ _; rfl
  | cons x L ih =>
    intro b hb hL
    have hx : 0 < x.2.2 := hL x (List.mem_cons_self x L)
    have hL' : ∀ e ∈ L, 0 < e.2.2 := fun e he => hL e (List.mem_cons_of_mem x he)
    simp only [List.map_cons, List.foldl_cons]
    by_cases hcmp : x.2.1 * b.2.2 > b.2.1 * x.2.2
    · rw [if_pos ((convQ_lt b x hb hx).mpr hcmp), if_pos hcmp]
      exact ih x hx hL'
    · rw [if_neg (fun hc => hcmp ((convQ_lt b x hb hx).mp hc)), if_neg hcmp]
      exact ih b hb hL'

lemma bestOf_eq (L : List (String × Nat × Nat)) (hL : ∀ e ∈ L, 0 < e.2.2) :
    bestOf (L.map convQ) = (bestOf2 L).map convQ := by
  cases L with
  | nil => rfl
  | cons s ss =>
    simp only [List.map_cons, bestOf, bestOf2, Option.map_some']
    exact congrArg some
      (bestOf_foldl_eq ss s (hL s (List.mem_cons_self s ss))
        (fun e he => hL e (List.mem_cons_of_mem s he)))

lemma category_scores2_pos (desc : Txt) :
    ∀ e ∈ category_scores2 desc, 0 < e.2.2 := by
  intro e he
  unfold category_scores2 at he
  rw [List.mem_filterMap] at he
  obtain ⟨ck, _, hck⟩ := he
  by_cases h : ck.2.length > 0
  · rw [if_pos h] at hck
    cases hck
    exact h
  · rw [if_neg h] at hck
    cases hck

lemma foldl_pick {α : Type}
    (f : α → α → α) (hf : ∀ b x, f b x = x ∨ f b x = b) :
    ∀ (L : List α) (b : α), L.foldl f b ∈ b :: L := by
  intro L
  induction L with
  | nil => intro b; exact List.mem_cons_self b []
  | cons x L ih =>
    intro b
    simp only [List.foldl_cons]
    have h := ih (f b x)
    rcases List.mem_cons.mp h with h' | h'
    · rw [h']
      rcases hf b x with hfx | hfb
      · rw [hfx]
        exact List.mem_cons_of_mem b (List.mem_cons_self x L)
      · rw [hfb]
        exact List.mem_cons_self b (x :: L)
    · exact List.mem_cons_of_mem b (List.mem_cons_of_mem x h')

lemma bestOf2_mem (L : List (String × Nat × Nat)) (b : String × Nat × Nat)
    (h : bestOf2 L = some b) : b ∈ L := by
  cases L with
  | nil => cases h
  | cons s ss =>
    unfold bestOf2 at h
    have hb := Option.some.inj h
    have hmem := foldl_pick
      (fun b x : String × Nat × Nat => if x.2.1 * b.2.2 > b.2.1 * x.2.2 then x else b)
      (fun b x => by by_cases hc : x.2.1 * b.2.2 > b.2.1 * x.2.2
                     · exact Or.inl (if_pos hc)
                     · exact Or.inr (if_neg hc)) ss s
    rw [hb] at hmem
    exact hmem

lemma floor_iff (b : String × Nat × Nat) (hb : 0 < b.2.2) :
    (convQ b).2 < 1/10 ↔ 5 * b.2.1 < b.2.2 := by
  unfold convQ
  simp only
  rw [div_lt_div_iff (by positivity) (by norm_num : (0:ℚ) < 10),
    show ((b.2.1 : ℚ)) * 10 = ((b.2.1 * 10 : Nat) : ℚ) by push_cast; ring,
    show (1 : ℚ) * (2 * (b.2.2 : ℚ)) = ((2 * b.2.2 : Nat) : ℚ) by push_cast; ring,
    Nat.cast_lt]
  omega

lemma keywordFallback_eq (desc : Txt) :
    keywordFallback desc = convQ (keywordFallback2 desc) := by
  unfold keywordFallback keywordFallback2
  rw [category_scores_eq, bestOf_eq _ (category_scores2_pos desc)]
  cases h : bestOf2 (category_scores2 desc) with
  | none =>
    simp only [Option.map_none']
    unfold convQ
    norm_num
  | some b =>
    simp only [Option.map_some']
    have hb : 0 < b.2.2 := category_scores2_pos desc b (bestOf2_mem _ b h)
    by_cases hfl : 5 * b.2.1 < b.2.2
    · rw [if_pos ((floor_iff b hb).mpr hfl), if_pos hfl]
      rfl
    · rw [if_neg (fun hc => hfl ((floor_iff b hb).mp hc)), if_neg hfl]

lemma convQ_zero : convQ ("Lainnya", 0, 1) = ("Lainnya", 0) := by
  unfold convQ
  norm_num

lemma CATEGORY_KEYWORDS_pos : ∀ ck ∈ CATEGORY_KEYWORDS, 0 < ck.2.length := by decide

lemma scoresQ_eq_map (L : List (String × List Txt)) (cleaned : Txt) (words : List Txt) :
    L.map (fun ck => (ck.1, keywordScore ck.2 cleaned words / (ck.2.length : ℚ)))
      = (L.map (fun ck => (ck.1, keywordScore2 ck.2 cleaned words, ck.2.length))).map convQ := by
  rw [List.map_map]
  refine congrArg (fun f => List.map f L) (funext fun ck => ?_)
  show (ck.1, keywordScore ck.2 cleaned words / (ck.2.length : ℚ)) = convQ _
  unfold convQ
  simp only
  rw [keywordScore_eq, div_div]

lemma classify_by_keywords_eq (desc : Txt) :
    classify_by_keywords desc = convQ (classify_by_keywords2 desc) := by
  unfold classify_by_keywords classify_by_keywords2
  by_cases hd : desc = []
  · rw [if_pos hd, if_pos hd, convQ_zero]
  · rw [if_neg hd, if_neg hd]
    simp only
    rw [scoresQ_eq_map, bestOf_eq]
    · cases h : bestOf2 ((CATEGORY_KEYWORDS.filter (fun ck => ck.1 ≠ "Lainnya")).map
        (fun ck => (ck.1, keywordScore2 ck.2 (clean_text desc) (splitWs (clean_text desc)),
          ck.2.length))) with
      | none =>
        simp only [Option.map_none']
        rw [convQ_zero]
      | some b =>
        simp only [Option.map_some']
        have hb : 0 < b.2.2 := by
          have hm := bestOf2_mem _ b h
          rw [List.mem_map] at hm
          obtain ⟨ck, hck, hbe⟩ := hm
          rw [← hbe]
          exact CATEGORY_KEYWORDS_pos ck (List.mem_of_mem_filter hck)
        by_cases hfl : 5 * b.2.1 < b.2.2
        · rw [if_pos ((floor_iff b hb).mpr hfl), if_pos hfl]
          rfl
        · rw [if_neg (fun hc => hfl ((floor_iff b hb).mp hc)), if_neg hfl]
    · intro e he
      rw [List.mem_map] at he
      obtain ⟨ck, hck, hbe⟩ := he
      rw [← hbe]
      exact CATEGORY_KEYWORDS_pos ck (List.mem_of_mem_filter hck)

/-! ### Properties of the normalizer -/

lemma isSpaceC_32 : isSpaceC 32 = true := rfl

lemma splitWs_cons (c : Nat) (cs : Txt) :
    splitWs (c :: cs) =
      if isSpaceC c then splitWs cs
      else
        match cs with
        | [] => [[c]]
        | d :: _ =>
          if isSpaceC d then [c] :: splitWs cs
          else
            match splitWs cs with
            | [] => [[c]]
            | w :: ws => (c :: w) :: ws := rfl

lemma splitWs_space {c : Nat} (cs : Txt) (h : isSpaceC c = true) :
    splitWs (c :: cs) = splitWs cs := by
  rw [splitWs_cons, if_pos (by simp [h])]

lemma splitWs_single {c : Nat} (h : isSpaceC c = false) : splitWs [c] = [[c]] := by
  rw [splitWs_cons, if_neg (by simp [h])]

lemma splitWs_cons_sp {c d : Nat} (cs : Txt) (hc : isSpaceC c = false)
    (hd : isSpaceC d = true) :
    splitWs (c :: d :: cs) = [c] :: splitWs (d :: cs) := by
  rw [splitWs_cons, if_neg (by simp [hc])]
  simp [hd]

lemma splitWs_cons_ns {c d : Nat} (cs : Txt) {w : Txt} {ws : List Txt}
    (hc : isSpaceC c = false) (hd : isSpaceC d = false)
    (hr : splitWs (d :: cs) = w :: ws) :
    splitWs (c :: d :: cs) = (c :: w) :: ws := by
  rw [splitWs_cons, if_neg (by simp [hc])]
  simp [hd, hr]

lemma splitWs_ne_nil {d : Nat} (cs : Txt) (hd : isSpaceC d = false) :
    splitWs (d :: cs) ≠ [] := by
  rw [splitWs_cons, if_neg (by simp [hd])]
  split
  · simp
  · split
    · simp
    · split <;> simp

lemma splitWs_sound :
    ∀ l : Txt, ∀ w ∈ splitWs l, w ≠ [] ∧ ∀ c ∈ w, isSpaceC c = false ∧ c ∈ l := by
  intro l
  induction l with
  | nil => intro w hw; cases hw
  | cons c cs ih =>
    intro w hw
    by_cases hc : isSpaceC c = true
    · rw [splitWs_space cs hc] at hw
      obtain ⟨h1, h2⟩ := ih w hw
      exact ⟨h1, fun x hx => ⟨(h2 x hx).1, List.mem_cons_of_mem c (h2 x hx).2⟩⟩
    · have hc' : isSpaceC c = false := by simpa using hc
      cases cs with
      | nil =>
        rw [splitWs_single hc'] at hw
        rcases List.mem_cons.mp hw with h | h
        · subst h
          refine ⟨by simp, fun x hx => ?_⟩
          rcases List.mem_cons.mp hx with h | h
          · rw [h]; exact ⟨hc', List.mem_cons_self c []⟩
          · cases h
        · cases h
      | cons d cs' =>
        by_cases hd : isSpaceC d = true
        · rw [splitWs_cons_sp cs' hc' hd] at hw
          rcases List.mem_cons.mp hw with h | h
          · subst h
            refine ⟨by simp, fun x hx => ?_⟩
            rcases List.mem_cons.mp hx with h | h
            · rw [h]; exact ⟨hc', List.mem_cons_self c _⟩
            · cases h
          · obtain ⟨h1, h2⟩ := ih w h
            exact ⟨h1, fun x hx => ⟨(h2 x hx).1, List.mem_cons_of_mem c (h2 x hx).2⟩⟩
        · have hd' : isSpaceC d = false := by simpa using hd
          cases hr : splitWs (d :: cs') with
          | nil => exact absurd hr (splitWs_ne_nil cs' hd')
          | cons w0 ws0 =>
            rw [splitWs_cons_ns cs' hc' hd' hr] at hw
            rcases List.mem_cons.mp hw with h | h
            · subst h
              obtain ⟨_, h2⟩ := ih w0 (hr ▸ List.mem_cons_self w0 ws0)
              refine ⟨by simp, fun x hx => ?_⟩
              rcases List.mem_cons.mp hx with h | h
              · rw [h]; exact ⟨hc', List.mem_cons_self c _⟩
              · exact ⟨(h2 x h).1, List.mem_cons_of_mem c (h2 x h).2⟩
            · obtain ⟨h1, h2⟩ := ih w (hr ▸ List.mem_cons_of_mem w0 h)
              exact ⟨h1, fun x hx => ⟨(h2 x hx).1, List.mem_cons_of_mem c (h2 x hx).2⟩⟩

lemma splitWs_word :
    ∀ w : Txt, w ≠ [] → (∀ c ∈ w, isSpaceC c = false) → splitWs w = [w] := by
  intro w
  induction w with
  | nil => intro h; exact absurd rfl h
  | cons c w' ih =>
    intro _ hsp
    cases w' with
    | nil => exact splitWs_single (hsp c (List.mem_cons_self c []))
    | cons d w'' =>
      have hr : splitWs (d :: w'') = [d :: w''] :=
        ih (by simp) (fun x hx => hsp x (List.mem_cons_of_mem c hx))
      exact splitWs_cons_ns w'' (hsp c (List.mem_cons_self c _))
        (hsp d (List.mem_cons_of_mem c (List.mem_cons_self d w''))) hr

lemma splitWs_word_append :
    ∀ (w rest : Txt), w ≠ [] → (∀ c ∈ w, isSpaceC c = false) →
      splitWs (w ++ 32 :: rest) = w :: splitWs rest := by
  intro w
  induction w with
  | nil => intro rest h; exact absurd rfl h
  | cons c w' ih =>
    intro rest _ hsp
    cases w' with
    | nil =>
      show splitWs (c :: 32 :: rest) = [c] :: splitWs rest
      rw [splitWs_cons_sp rest (hsp c (List.mem_cons_self c [])) isSpaceC_32,
        splitWs_space rest isSpaceC_32]
    | cons d w'' =>
      have hr : splitWs ((d :: w'') ++ 32 :: rest) = (d :: w'') :: splitWs rest :=
        ih rest (by simp) (fun x hx => hsp x (List.mem_cons_of_mem c hx))
      show splitWs (c :: ((d :: w'') ++ 32 :: rest)) = (c :: d :: w'') :: splitWs rest
      exact splitWs_cons_ns (w'' ++ 32 :: rest) (hsp c (List.mem_cons_self c _))
        (hsp d (List.mem_cons_of_mem c (List.mem_cons_self d w''))) hr

lemma splitWs_joinSpace :
    ∀ ws : List Txt, (∀ w ∈ ws, w ≠ [] ∧ ∀ c ∈ w, isSpaceC c = false) →
      splitWs (joinSpace ws) = ws := by
  intro ws
  induction ws with
  | nil => intro _; rfl
  | cons w ws' ih =>
    intro h
    cases ws' with
    | nil =>
      show splitWs (joinSpace [w]) = [w]
      have hw := h w (List.mem_cons_self w [])
      exact splitWs_word w hw.1 hw.2
    | cons v ws'' =>
      show splitWs (w ++ 32 :: joinSpace (v :: ws'')) = w :: v :: ws''
      have hw := h w (List.mem_cons_self w _)
      rw [splitWs_word_append w _ hw.1 hw.2,
        ih (fun x hx => h x (List.mem_cons_of_mem w hx))]

lemma mem_joinSpace :
    ∀ (ws : List Txt) (c : Nat), c ∈ joinSpace ws → c = 32 ∨ ∃ w ∈ ws, c ∈ w := by
  intro ws
  induction ws with
  | nil => intro c hc; cases hc
  | cons w ws' ih =>
    intro c hc
    cases ws' with
    | nil => exact Or.inr ⟨w, List.mem_cons_self w [], hc⟩
    | cons v ws'' =>
      rcases List.mem_append.mp hc with h | h
      · exact Or.inr ⟨w, List.mem_cons_self w _, h⟩
      · rcases List.mem_cons.mp h with h | h
        · exact Or.inl h
        · rcases ih c h with h' | ⟨w', hw', hcw'⟩
          · exact Or.inl h'
          · exact Or.inr ⟨w', List.mem_cons_of_mem w hw', hcw'⟩

lemma map_id_of (f : Nat → Nat) :
    ∀ l : Txt, (∀ c ∈ l, f c = c) → l.map f = l := by
  intro l
  induction l with
  | nil => intro _; rfl
  | cons c cs ih =>
    intro h
    rw [List.map_cons, h c (List.mem_cons_self c cs),
      ih (fun x hx => h x (List.mem_cons_of_mem c hx))]

lemma low_sub_class (c : Nat) :
    (97 ≤ sub (low c) ∧ sub (low c) ≤ 122) ∨ isSpaceC (sub (low c)) = true := by
  unfold sub low isLetter isSpaceC
  split_ifs <;> simp_all <;> omega

lemma low_id_of (c : Nat) (h : (97 ≤ c ∧ c ≤ 122) ∨ isSpaceC c = true) : low c = c := by
  unfold low
  rw [if_neg]
  simp only [Bool.and_eq_true, decide_eq_true_eq, not_and, not_le]
  intro h65
  rcases h with ⟨h97, _⟩ | hsp
  · omega
  · simp only [isSpaceC, Bool.or_eq_true, beq_iff_eq] at hsp
    omega

lemma sub_id_of (c : Nat) (h : (97 ≤ c ∧ c ≤ 122) ∨ isSpaceC c = true) : sub c = c := by
  unfold sub
  rw [if_pos]
  rcases h with ⟨h97, h122⟩ | hsp
  · simp only [isLetter, Bool.or_eq_true, Bool.and_eq_true, decide_eq_true_eq]
    exact Or.inl (Or.inl ⟨h97, h122⟩)
  · simp [hsp]

lemma clean_text_nil : clean_text [] = [] := rfl

lemma clean_text_expand (t : Txt) (h : t ≠ []) :
    clean_text t = joinSpace (splitWs ((t.map low).map sub)) := by
  unfold clean_text
  rw [if_neg h]

lemma clean_text_chars (t : Txt) :
    ∀ c ∈ clean_text t, (97 ≤ c ∧ c ≤ 122) ∨ isSpaceC c = true := by
  intro c hc
  by_cases ht : t = []
  · rw [ht, clean_text_nil] at hc
    cases hc
  · rw [clean_text_expand t ht] at hc
    rcases mem_joinSpace _ c hc with h32 | ⟨w, hw, hcw⟩
    · subst h32
      exact Or.inr rfl
    · obtain ⟨_, h2⟩ := splitWs_sound _ w hw
      obtain ⟨hns, hmem⟩ := h2 c hcw
      rw [List.mem_map] at hmem
      obtain ⟨c1, hc1mem, hc1⟩ := hmem
      rw [List.mem_map] at hc1mem
      obtain ⟨c0, _, hc0⟩ := hc1mem
      have hcls := low_sub_class c0
      rw [hc0, hc1] at hcls
      rcases hcls with hlet | hsp
      · exact Or.inl hlet
      · rw [hsp] at hns
        cases hns

lemma clean_text_idem (t : Txt) : clean_text (clean_text t) = clean_text t := by
  by_cases h0 : clean_text t = []
  · rw [h0, clean_text_nil]
  · rw [clean_text_expand (clean_text t) h0,
      map_id_of low _ (fun c hc => low_id_of c (clean_text_chars t c hc)),
      map_id_of sub _ (fun c hc => sub_id_of c (clean_text_chars t c hc))]
    have ht : t ≠ [] := fun h => h0 (by rw [h, clean_text_nil])
    rw [clean_text_expand t ht,
      splitWs_joinSpace _ (fun w hw =>
        ⟨(splitWs_sound _ w hw).1, fun c hc => ((splitWs_sound _ w hw).2 c hc).1⟩)]

/-! ### Evaluated classifications and dispatcher case lemmas -/

lemma kwf_nil : keywordFallback ([] : Txt) = ("Lainnya", 0) := by
  rw [keywordFallback_eq,
    show keywordFallback2 [] = ("Lainnya", 0, 43) from by decide]
  unfold convQ
  norm_num

lemma kwf_warteg : keywordFallback (txt "makan siang di warteg") = ("Lainnya", 7/86) := by
  rw [keywordFallback_eq,
    show keywordFallback2 (txt "makan siang di warteg") = ("Lainnya", 7, 43) from by decide]
  unfold convQ
  norm_num

lemma kwf_donasi : keywordFallback (txt "donasi") = ("Lainnya", 1/18) := by
  rw [keywordFallback_eq,
    show keywordFallback2 (txt "donasi") = ("Lainnya", 2, 18) from by decide]
  unfold convQ
  norm_num

lemma kwf_amal :
    keywordFallback (txt "amal donasi denda hadiah infaq kado") = ("Lainnya", 1/3) := by
  rw [keywordFallback_eq,
    show keywordFallback2 (txt "amal donasi denda hadiah infaq kado") = ("Lainnya", 12, 18)
      from by decide]
  unfold convQ
  norm_num

lemma cbk_donasi : classify_by_keywords (txt "donasi") = ("Lainnya", 1/43) := by
  rw [classify_by_keywords_eq,
    show classify_by_keywords2 (txt "donasi") = ("Lainnya", 2, 43) from by decide]
  unfold convQ
  norm_num

lemma categorize_unavail (att : Except Unit (String × ℚ)) (desc : Txt) :
    categorize_transaction false att desc = keywordFallback desc := by
  unfold categorize_transaction
  by_cases hd : desc = []
  · rw [if_pos hd, hd, kwf_nil]
  · rw [if_neg hd, if_neg (by simp : ¬(false = true))]

lemma categorize_ml_low (c : String) (q : ℚ) (desc : Txt)
    (hq : ¬ q > 3/10) (hd : desc ≠ []) :
    categorize_transaction true (Except.ok (c, q)) desc = keywordFallback desc := by
  unfold categorize_transaction predict_with_ml_model predict_attempt
  rw [if_neg hd, if_pos rfl]
  show (if c ≠ "" ∧ q > 3/10 then (c, q) else keywordFallback desc) = keywordFallback desc
  rw [if_neg (fun h => hq h.2)]

lemma categorize_ml_high (c : String) (q : ℚ) (desc : Txt)
    (hc : c ≠ "") (hq : q > 3/10) (hd : desc ≠ []) :
    categorize_transaction true (Except.ok (c, q)) desc = (c, q) := by
  unfold categorize_transaction predict_with_ml_model predict_attempt
  rw [if_neg hd, if_pos rfl]
  show (if c ≠ "" ∧ q > 3/10 then (c, q) else keywordFallback desc) = (c, q)
  rw [if_pos ⟨hc, hq⟩]

lemma categorize_ml_error (desc : Txt) :
    categorize_transaction true (Except.error ()) desc = keywordFallback desc := by
  unfold categorize_transaction predict_with_ml_model predict_attempt
  by_cases hd : desc = []
  · rw [if_pos hd, hd, kwf_nil]
  · rw [if_neg hd, if_pos rfl]
    rfl

lemma pm_false (q : ℚ) : prediction_method false q = "keyword_matching" := by
  unfold prediction_method
  rw [if_neg (fun h => by cases h.1)]

lemma sub_low_keep (c : Nat) (h : isLetter c = true ∨ isSpaceC c = true) :
    sub (low c) = low c := by
  have harith : (97 ≤ c ∧ c ≤ 122) ∨ (65 ≤ c ∧ c ≤ 90) ∨ c = 32 ∨ c = 9 ∨ c = 10 ∨
      c = 13 ∨ c = 11 ∨ c = 12 := by
    rcases h with h | h <;>
      simp only [isLetter, isSpaceC, Bool.or_eq_true, Bool.and_eq_true,
        decide_eq_true_eq, beq_iff_eq] at h <;> tauto
  unfold sub low isLetter isSpaceC
  split_ifs <;> simp_all <;> omega

lemma scores_keys (cleaned : Txt) (words : List Txt) :
    ∀ L : List (String × List Txt), (∀ ck ∈ L, 0 < ck.2.length) →
      (L.filterMap (fun ck =>
        if ck.2.length > 0 then
          some (ck.1, keywordScore ck.2 cleaned words / (ck.2.length : ℚ))
        else none)).map Prod.fst = L.map Prod.fst := by
  intro L
  induction L with
  | nil => intro _; rfl
  | cons ck L ih =>
    intro h
    rw [List.filterMap_cons, if_pos (h ck (List.mem_cons_self ck L))]
    simp only [List.map_cons]
    rw [ih (fun x hx => h x (List.mem_cons_of_mem ck hx))]

lemma batchResults_length (loaded : Bool) (ml : Txt → Except Unit (String × ℚ)) :
    ∀ (txs : List TxItem) (n : Nat), (batchResults loaded ml n txs).length = txs.length := by
  intro txs
  induction txs with
  | nil => intro n; rfl
  | cons t ts ih => intro n; simp [batchResults, ih]

lemma batchResults_get (loaded : Bool) (ml : Txt → Except Unit (String × ℚ)) :
    ∀ (txs : List TxItem) (n i : Nat),
      (batchResults loaded ml n txs)[i]? = (txs[i]?).map (batchEntry loaded ml (n + i)) := by
  intro txs
  induction txs with
  | nil => intro n i; simp [batchResults]
  | cons t ts ih =>
    intro n i
    cases i with
    | zero => simp [batchResults]
    | succ i =>
      simp only [batchResults, List.getElem?_cons_succ]
      rw [ih (n + 1) i, show n + 1 + i = n + (i + 1) from by omega]

/-! ### The claims -/

/-- C1: the claim says every keyword-fallback call reports
`prediction_method = "keyword_matching"` regardless of the keyword
confidence.  The code violates it: with the model loaded, ML confidence
0.2 (≤ 0.3) forces the keyword fallback, whose confidence 1/3 exceeds 0.3,
and line 297 then labels the response `"ml_model"` although the keyword
classifier produced the prediction. -/
theorem C1_prediction_method_mislabels_keyword_result :
    categorize_transaction true (Except.ok ("Tagihan", 1/5))
        (txt "amal donasi denda hadiah infaq kado") = ("Lainnya", 1/3)
    ∧ keywordFallback (txt "amal donasi denda hadiah infaq kado") = ("Lainnya", 1/3)
    ∧ prediction_method true (1/3) = "ml_model"
    ∧ ("ml_model" : String) ≠ "keyword_matching" := by
  refine ⟨?_, kwf_amal, ?_, by decide⟩
  · rw [categorize_ml_low "Tagihan" (1/5) _ (by norm_num) (by decide), kwf_amal]
  · unfold prediction_method
    rw [if_pos ⟨rfl, by norm_num⟩]

/-- C2 counterexample: with the statistical model unavailable,
`"makan siang di warteg"` is NOT classified as the food category with
confidence above 0.1 — the code returns the catch-all with
confidence 7/86 ≈ 0.081 < 0.1. -/
theorem C2_warteg_example_counterexample :
    categorize_transaction false (Except.error ()) (txt "makan siang di warteg")
      = ("Lainnya", 7/86)
    ∧ ("Lainnya" : String) ≠ "Makanan & Minuman"
    ∧ ¬ ((7 : ℚ)/86 > 1/10) := by
  refine ⟨?_, by decide, by norm_num⟩
  rw [categorize_unavail, kwf_warteg]

/-- C2 amended: with the statistical model unavailable, categorizing
`"makan siang di warteg"` returns the catch-all `"Lainnya"` with
confidence 7/86 (the keyword score 3.5 over the 43 food keywords), which
is below the 0.1 floor, and the reported method is `"keyword_matching"`. -/
theorem C2_warteg_example_amended :
    categorize_transaction false (Except.error ()) (txt "makan siang di warteg")
      = ("Lainnya", 7/86)
    ∧ (7 : ℚ)/86 < 1/10
    ∧ prediction_method false (7/86) = "keyword_matching" := by
  refine ⟨?_, by norm_num, pm_false _⟩
  rw [categorize_unavail, kwf_warteg]

/-- C3 counterexample: the catch-all `"Lainnya"` has 18 keywords (not
none) and IS assigned a score by the per-category scoring loop (for
`"donasi"` it is scored 1/18). -/
theorem C3_catchall_scored_counterexample :
    (CATEGORY_KEYWORDS.find? (fun ck => ck.1 == "Lainnya")).map (fun ck => ck.2.length)
      = some 18
    ∧ ("Lainnya", (1 : ℚ)/18) ∈ category_scores (txt "donasi") := by
  refine ⟨by decide, ?_⟩
  rw [category_scores_eq]
  refine List.mem_map.mpr ⟨("Lainnya", 2, 18), by decide, ?_⟩
  unfold convQ
  norm_num

/-- C3 amended: every category of the keyword map, including the
catch-all `"Lainnya"`, has a non-empty keyword list and is assigned a
score by the scoring loop; `"Lainnya"` is additionally returned as the
default when the best score is below the 0.1 floor. -/
theorem C3_lexicon_invariant_amended :
    (∀ ck ∈ CATEGORY_KEYWORDS, ck.2.length ≠ 0)
    ∧ (∀ desc : Txt, (category_scores desc).map Prod.fst = CATEGORY_KEYWORDS.map Prod.fst)
    ∧ (∀ (desc : Txt) (b : String × ℚ), bestOf (category_scores desc) = some b →
        b.2 < 1/10 → keywordFallback desc = ("Lainnya", b.2)) := by
  refine ⟨fun ck hck => (CATEGORY_KEYWORDS_pos ck hck).ne', fun desc => ?_, ?_⟩
  · unfold category_scores
    exact scores_keys (clean_text desc) (splitWs (clean_text desc))
      CATEGORY_KEYWORDS CATEGORY_KEYWORDS_pos
  · intro desc b hbest hlt
    unfold keywordFallback
    rw [hbest]
    show (if b.2 < 1/10 then ("Lainnya", b.2) else b) = ("Lainnya", b.2)
    rw [if_pos hlt]

/-- C3 amended, witness: at the no-match description `"xyz"` the best
score is the first category with score 0, and the catch-all is returned. -/
theorem C3_lexicon_invariant_amended_witness :
    keywordFallback (txt "xyz") = ("Lainnya", 0) := by
  have h1 : bestOf (category_scores (txt "xyz")) = some ("Makanan & Minuman", 0) := by
    rw [category_scores_eq, bestOf_eq _ (category_scores2_pos _),
      show bestOf2 (category_scores2 (txt "xyz")) = some ("Makanan & Minuman", 0, 43)
        from by decide]
    simp only [Option.map_some']
    unfold convQ
    norm_num
  exact C3_lexicon_invariant_amended.2.2 (txt "xyz") ("Makanan & Minuman", 0) h1
    (by norm_num)

/-- C4 counterexample: `preprocess_text` (statistical/training path) does
not strip non-letter characters, so it differs from the keyword-path
normalizer `clean_text` already on `"a1"`. -/
theorem C4_preprocess_clean_counterexample :
    preprocess_text (txt "a1") = txt "a1"
    ∧ clean_text (txt "a1") = txt "a"
    ∧ preprocess_text (txt "a1") ≠ clean_text (txt "a1") := by
  refine ⟨by decide, by decide, by decide⟩

/-- C4 amended: the two normalizers agree exactly on inputs whose
characters are all ASCII letters or whitespace; in general
`preprocess_text` only lowercases and collapses whitespace and does not
replace other characters, so it is not the §4.1 normalizer. -/
theorem C4_preprocess_clean_amended :
    ∀ t : Txt, (∀ c ∈ t, isLetter c = true ∨ isSpaceC c = true) →
      preprocess_text t = clean_text t := by
  intro t h
  unfold preprocess_text clean_text
  by_cases ht : t = []
  · rw [if_pos ht, if_pos ht]
  · rw [if_neg ht, if_neg ht,
      map_id_of sub (t.map low) (fun c hc => by
        rw [List.mem_map] at hc
        obtain ⟨c0, hc0t, hc0⟩ := hc
        rw [← hc0]
        exact sub_low_keep c0 (h c0 hc0t))]

/-- C4 amended, witness. -/
theorem C4_preprocess_clean_amended_witness :
    preprocess_text (txt "ab c") = clean_text (txt "ab c") :=
  C4_preprocess_clean_amended (txt "ab c") (by decide)

/-- C5 counterexample: with the statistical path unavailable the
dispatcher does NOT equal the spec's `classify_by_keywords` (§4.2, which
excludes the catch-all from scoring): on `"donasi"` the dispatcher
returns confidence 1/18 (the catch-all's own score) while §4.2 returns
1/43. -/
theorem C5_dispatcher_keyword_equiv_counterexample :
    categorize_transaction false (Except.error ()) (txt "donasi") = ("Lainnya", 1/18)
    ∧ classify_by_keywords (txt "donasi") = ("Lainnya", 1/43)
    ∧ ((1 : ℚ)/18) ≠ ((1 : ℚ)/43) := by
  refine ⟨?_, cbk_donasi, by norm_num⟩
  rw [categorize_unavail, kwf_donasi]

/-- C5 amended: with the statistical path unavailable, the dispatcher
equals the keyword classifier as implemented (the keyword fallback that
also scores the catch-all category), for every description including the
empty one. -/
theorem C5_dispatcher_keyword_equiv_amended :
    ∀ (att : Except Unit (String × ℚ)) (desc : Txt),
      categorize_transaction false att desc = keywordFallback desc :=
  categorize_unavail

/-- C6: a statistical prediction wins only when its confidence strictly
exceeds 0.3; at confidence exactly 0.3 or below, the keyword fallback's
result is returned instead. -/
theorem C6_statistical_threshold :
    ∀ (c : String) (q : ℚ) (desc : Txt), desc ≠ [] →
      (q ≤ 3/10 →
        categorize_transaction true (Except.ok (c, q)) desc = keywordFallback desc)
      ∧ (c ≠ "" → q > 3/10 →
        categorize_transaction true (Except.ok (c, q)) desc = (c, q)) := by
  intro c q desc hd
  constructor
  · intro hq
    exact categorize_ml_low c q desc (not_lt.mpr hq) hd
  · intro hc hq
    exact categorize_ml_high c q desc hc hq hd

/-- C6 witness: at the boundary confidence exactly 0.3 the keyword path
is used. -/
theorem C6_statistical_threshold_witness :
    categorize_transaction true (Except.ok ("Transportasi", 3/10)) (txt "makan")
      = keywordFallback (txt "makan") :=
  (C6_statistical_threshold "Transportasi" (3/10) (txt "makan") (by decide)).1
    (le_refl _)

/-- C7: for every description (the empty one included) and every outcome
of the statistical step — including a raised exception — the dispatcher
terminates with a concrete `(category, confidence)` result and never
propagates an error: the exception is absorbed at the adapter boundary
(converted to the unavailable result) and the keyword fallback supplies
the answer. -/
theorem C7_dispatcher_never_raises :
    (∀ (loaded : Bool) (att : Except Unit (String × ℚ)) (desc : Txt),
        categorize_transactionE loaded att desc
          = Except.ok (categorize_transaction loaded att desc))
    ∧ (∀ desc : Txt,
        categorize_transactionE true (Except.error ()) desc
          = Except.ok (keywordFallback desc))
    ∧ (∀ (loaded : Bool) (att : Except Unit (String × ℚ)) (desc : Txt),
        ∃ r : String × ℚ, categorize_transactionE loaded att desc = Except.ok r) := by
  have h1 : ∀ (loaded : Bool) (att : Except Unit (String × ℚ)) (desc : Txt),
      categorize_transactionE loaded att desc
        = Except.ok (categorize_transaction loaded att desc) := by
    intro loaded att desc
    unfold categorize_transactionE categorize_transaction predict_with_ml_model
    by_cases hd : desc = []
    · rw [if_pos hd, if_pos hd]
    · rw [if_neg hd, if_neg hd]
      cases loaded with
      | false =>
        rw [if_neg (by simp : ¬(false = true)), if_neg (by simp : ¬(false = true))]
      | true =>
        rw [if_pos rfl, if_pos rfl]
        cases att with
        | error e => rfl
        | ok r =>
          show (if r.1 ≠ "" ∧ r.2 > 3/10 then Except.ok (r.1, r.2)
              else Except.ok (keywordFallback desc))
            = Except.ok
                (if r.1 ≠ "" ∧ r.2 > 3/10 then (r.1, r.2) else keywordFallback desc)
          by_cases hc : r.1 ≠ "" ∧ r.2 > 3/10
          · rw [if_pos hc, if_pos hc]
          · rw [if_neg hc, if_neg hc]
  exact ⟨h1, fun desc => by rw [h1, categorize_ml_error],
    fun loaded att desc => ⟨categorize_transaction loaded att desc, h1 loaded att desc⟩⟩

/-- C8: for a batch whose `transactions` field is a list, the loop emits
exactly one record per element — an error record carrying the element's
index for malformed elements, a full classification otherwise — and
`total_processed` is the length of `results`; in particular the concrete
3-element batch whose 2nd element is malformed yields 3 records with the
2nd an error record of index 1 and the other two fully classified. -/
theorem C8_batch_per_item :
    (∀ (loaded : Bool) (ml : Txt → Except Unit (String × ℚ)) (txs : List TxItem),
      (categorize_batch loaded ml txs).1.length = txs.length
      ∧ (categorize_batch loaded ml txs).2 = (categorize_batch loaded ml txs).1.length
      ∧ (∀ i : Nat, (categorize_batch loaded ml txs).1[i]?
          = (txs[i]?).map (batchEntry loaded ml i))
      ∧ (∀ i : Nat, txs[i]? = some TxItem.malformed →
          (categorize_batch loaded ml txs).1[i]? = some (BatchItemResult.err i)))
    ∧ categorize_batch false (fun _ => Except.error ())
        [TxItem.valid (txt "makan siang di warteg"), TxItem.malformed,
          TxItem.valid (txt "donasi")]
      = ([BatchItemResult.ok 0 (txt "makan siang di warteg") "Lainnya" (7/86)
            "keyword_matching",
          BatchItemResult.err 1,
          BatchItemResult.ok 2 (txt "donasi") "Lainnya" (1/18) "keyword_matching"],
         3) := by
  have hget : ∀ (loaded : Bool) (ml : Txt → Except Unit (String × ℚ))
      (txs : List TxItem) (i : Nat),
      (categorize_batch loaded ml txs).1[i]? = (txs[i]?).map (batchEntry loaded ml i) := by
    intro loaded ml txs i
    show (batchResults loaded ml 0 txs)[i]? = _
    rw [batchResults_get loaded ml txs 0 i, Nat.zero_add]
  refine ⟨fun loaded ml txs =>
    ⟨batchResults_length loaded ml txs 0, rfl, hget loaded ml txs, ?_⟩, ?_⟩
  · intro i hi
    rw [hget loaded ml txs i, hi]
    rfl
  · have hlist : batchResults false (fun _ => Except.error ()) 0
        [TxItem.valid (txt "makan siang di warteg"), TxItem.malformed,
          TxItem.valid (txt "donasi")]
        = [BatchItemResult.ok 0 (txt "makan siang di warteg") "Lainnya" (7/86)
            "keyword_matching",
           BatchItemResult.err 1,
           BatchItemResult.ok 2 (txt "donasi") "Lainnya" (1/18) "keyword_matching"] := by
      simp only [batchResults, batchEntry, categorize_unavail, kwf_warteg, kwf_donasi,
        pm_false]
    show (batchResults false (fun _ => Except.error ()) 0 _,
        (batchResults false (fun _ => Except.error ()) 0 _).length) = _
    rw [hlist]
    rfl

/-- C8 witness: in the concrete 3-element batch the 2nd element is
malformed and its record is the error record with index 1. -/
theorem C8_batch_per_item_witness :
    (categorize_batch false (fun _ => Except.error ())
        [TxItem.valid (txt "makan siang di warteg"), TxItem.malformed,
          TxItem.valid (txt "donasi")]).1[1]?
      = some (BatchItemResult.err 1) :=
  (C8_batch_per_item.1 false (fun _ => Except.error ())
      [TxItem.valid (txt "makan siang di warteg"), TxItem.malformed,
        TxItem.valid (txt "donasi")]).2.2.2 1 rfl

/-- C9: the keyword-path normalizer is idempotent, and maps the empty
string and the absent (`None`-like) input to the empty string without
raising. -/
theorem C9_normalize_idempotent :
    (∀ t : Txt, clean_text (clean_text t) = clean_text t)
    ∧ clean_text (txt "") = txt ""
    ∧ clean_text_opt none = txt "" :=
  ⟨clean_text_idem, rfl, rfl⟩

/-- C10: `GET /categories` returns the keyword-map keys with `"Lainnya"`
appended; since `"Lainnya"` is itself a key, it occurs exactly twice, and
`total_categories` is the length of the returned list, one more than the
number of keys. -/
theorem C10_categories_catchall_twice :
    get_categories.1 = CATEGORY_KEYWORDS.map Prod.fst ++ ["Lainnya"]
    ∧ get_categories.1.count "Lainnya" = 2
    ∧ get_categories.2 = get_categories.1.length
    ∧ get_categories.1.length = CATEGORY_KEYWORDS.length + 1 := by
  refine ⟨rfl, by decide, rfl, by decide⟩
